import Mathlib

/-!
Shallow embedding of the `datatable` package (godog-helpers): an in-memory
table of string cells with optional schema validation, plus row search and
mutation.  Go slices become Lean lists, Go `error` returns become
`Option DTError` (with `none` standing for Go's `nil` error) or
`Except DTError`, receiver mutation becomes explicit state passing, and a Go
runtime panic is modelled as a distinguished outcome (`none` / `slicePanic`).
Slice capacity is abstracted as equal to length, so slicing past the length
is modelled as a panic.
-/

namespace Datatable

/-- Go `Options`: field options for the DataTable. -/
structure Options where
  optionalFields : List String
  requiredFields : List String
  deriving Repr, DecidableEq

/-- Go `DataTable`: field names, rows, and the optional `*Options` pointer
(`none` models a nil pointer). -/
structure DataTable where
  fields : List String
  rows : List (List String)
  options : Option Options
  deriving Repr, DecidableEq

/-- One constructor per error construction site in the Go source:
`fmt.Errorf("expected row length of %d, got %d", ...)`,
`fmt.Errorf("data table is missing required field %q", ...)`,
`fmt.Errorf("data table contains additional field %q, allowed fields are %s", ...)`,
and `errors.New("data table must have at least two rows")`. -/
inductive DTError where
  | arity (expected actual : Nat)
  | missingField (field : String)
  | unknownField (field : String) (allowed : List String)
  | malformedTable
  deriving Repr, DecidableEq

/-- Go helper `contains`: true if haystack contains needle. -/
def contains (haystack : List String) (needle : String) : Bool :=
  match haystack with
  | [] => false
  | element :: rest => if element = needle then true else contains rest needle

/-- The first loop of Go `validateFields`: walk `requiredFields` in order and
fail on the first one not contained in `fields`. -/
def checkRequired (fields : List String) : List String → Option DTError
  | [] => none
  | field :: rest =>
    if contains fields field then checkRequired fields rest
    else some (.missingField field)

/-- The second loop of Go `validateFields`: walk `fields` in order and fail on
the first one not contained in `allowedFields`. -/
def checkAllowed (allowedFields : List String) : List String → Option DTError
  | [] => none
  | field :: rest =>
    if contains allowedFields field then checkAllowed allowedFields rest
    else some (.unknownField field allowedFields)

/-- Go `validateFields`: nil options validate trivially; otherwise required
fields must be present, and when `OptionalFields` is non-empty every field must
be contained in `append(OptionalFields, RequiredFields...)`. -/
def validateFields (t : DataTable) : Option DTError :=
  match t.options with
  | none => none
  | some o =>
    match checkRequired t.fields o.requiredFields with
    | some e => some e
    | none =>
      if o.optionalFields.length = 0 then none
      else checkAllowed (o.optionalFields ++ o.requiredFields) t.fields

/-- The arity loop at the top of Go `NewWithOptions`: fail on the first row
whose length differs from the field count. -/
def checkArity (fields : List String) : List (List String) → Option DTError
  | [] => none
  | row :: rest =>
    if row.length ≠ fields.length then some (.arity fields.length row.length)
    else checkArity fields rest

/-- Go `NewWithOptions`: arity check on every row, then build the table and
run `validateFields`; any failure is returned and no table is produced. -/
def NewWithOptions (options : Option Options) (fields : List String)
    (rows : List (List String)) : Except DTError DataTable :=
  match checkArity fields rows with
  | some e => .error e
  | none =>
    let dt : DataTable := ⟨fields, rows, options⟩
    match validateFields dt with
    | some e => .error e
    | none => .ok dt

/-- Go `New`: `NewWithOptions` with a nil options pointer. -/
def New (fields : List String) (rows : List (List String)) :
    Except DTError DataTable :=
  NewWithOptions none fields rows

/-- Go `gherkin.TableCell` (only the `Value` field is consumed). -/
structure TableCell where
  value : String
  deriving Repr, DecidableEq

/-- Go `gherkin.TableRow` (only the `Cells` field is consumed). -/
structure TableRow where
  cells : List TableCell
  deriving Repr, DecidableEq

/-- Go `gherkin.DataTable` (only the `Rows` field is consumed). -/
structure GherkinDataTable where
  rows : List TableRow
  deriving Repr, DecidableEq

/-- Go helper `values`: the cell values of a gherkin row. -/
def values (row : TableRow) : List String :=
  row.cells.map (fun cell => cell.value)

/-- Go helper `rowValues`: the cell values of each gherkin row. -/
def rowValues (rows : List TableRow) : List (List String) :=
  rows.map values

/-- Go `FromGherkinWithOptions`: fewer than two rows is malformed; otherwise
the first row's cell values become the fields and the remaining rows' cell
values become the data rows, delegated to `NewWithOptions`. -/
def FromGherkinWithOptions (options : Option Options) (g : GherkinDataTable) :
    Except DTError DataTable :=
  match g.rows with
  | [] => .error .malformedTable
  | [_] => .error .malformedTable
  | r0 :: rest => NewWithOptions options (values r0) (rowValues rest)

/-- Go `FromGherkin`: `FromGherkinWithOptions` with a nil options pointer. -/
def FromGherkin (g : GherkinDataTable) : Except DTError DataTable :=
  FromGherkinWithOptions none g

/-- Go `Copy`: allocates a fresh table and deep-copies `fields` and `rows`
into it via `copier.Copy`; the `options` field is never assigned, so the copy
carries a nil options pointer. -/
def Copy (t : DataTable) : DataTable :=
  { fields := t.fields, rows := t.rows, options := none }

/-- Go `matchValues(a, b)`: iterates over the indices of `a` comparing
`b[i] != a[i]`; when `b` is exhausted before `a`, the access `b[i]` panics,
modelled as `none`. `some ok` models a normal return of `ok`. -/
def matchValues : List String → List String → Option Bool
  | [], _ => some true
  | _ :: _, [] => none
  | a :: restA, b :: restB =>
    if b ≠ a then some false else matchValues restA restB

/-- The loop of Go `FindRow`, carrying the current index; a panic inside
`matchValues` propagates as `none`. -/
def findRowAux (row : List String) : List (List String) → Int → Option Int
  | [], _ => some (-1)
  | r :: rest, i =>
    match matchValues r row with
    | none => none
    | some true => some i
    | some false => findRowAux row rest (i + 1)

/-- Go `FindRow`: the index of the first row matching `row` under
`matchValues`, `-1` when none matches, `none` when the scan panics. -/
def FindRow (t : DataTable) (row : List String) : Option Int :=
  findRowAux row t.rows 0

/-- Possible outcomes of row removal.  The Go code can produce `ok` or
`slicePanic` only; `boundsError` is the spec's implementer-added typed error,
present in the codomain so the code's behavior can be compared against the
spec's. -/
inductive RemoveOutcome where
  | ok (t : DataTable)
  | slicePanic
  | boundsError
  deriving Repr, DecidableEq

/-- Go `RemoveRow`: `t.rows = append(t.rows[:index], t.rows[index+1:]...)`.
The slice expressions are in range exactly when `0 ≤ index` and
`index < len(rows)` (capacity abstracted as length); otherwise the slice
operation panics.  There is no explicit bounds check in the source. -/
def RemoveRow (t : DataTable) (index : Int) : RemoveOutcome :=
  if 0 ≤ index ∧ index < (t.rows.length : Int) then
    .ok { t with rows := t.rows.take index.toNat ++ t.rows.drop (index.toNat + 1) }
  else .slicePanic

/-- Modelled from the spec: `removeRow` with the implementer-added explicit
bounds check, failing with a typed `BoundsError` for an out-of-range index
(`§4.3` / `§7` of the spec); absent from the Go source, which relies on the
slice operation's own panic. -/
def removeRowSpec (t : DataTable) (index : Int) : RemoveOutcome :=
  if 0 ≤ index ∧ index < (t.rows.length : Int) then
    .ok { t with rows := t.rows.take index.toNat ++ t.rows.drop (index.toNat + 1) }
  else .boundsError

/-- Go `AppendRow`: receiver mutation modelled by returning the error (if
any) together with the table after the call. -/
def AppendRow (t : DataTable) (row : List String) :
    Option DTError × DataTable :=
  if row.length ≠ t.fields.length then
    (some (.arity t.fields.length row.length), t)
  else
    (none, { t with rows := t.rows ++ [row] })

/-- Go `Len`: the row count. -/
def Len (t : DataTable) : Nat :=
  t.rows.length

/-- Go `Fields`: the table fields. -/
def Fields (t : DataTable) : List String :=
  t.fields

/-- Go `RowValues`: the raw rows. -/
def RowValues (t : DataTable) : List (List String) :=
  t.rows

/-- The table invariant: every row is exactly as long as the field list. -/
def Wf (t : DataTable) : Prop :=
  ∀ r ∈ t.rows, r.length = t.fields.length

/-! ### Characterizations of the validation loops -/

lemma contains_eq (l : List String) (s : String) :
    contains l s = l.contains s := by
  induction l with
  | nil => rfl
  | cons a rest ih =>
    by_cases h : a = s
    · simp [contains, h, List.contains_cons]
    · have hne : ¬ s = a := fun hs => h hs.symm
      simp [contains, h, List.contains_cons, ih, hne]

lemma checkRequired_eq (fields req : List String) :
    checkRequired fields req =
      (req.find? fun f => !(fields.contains f)).map DTError.missingField := by
  induction req with
  | nil => rfl
  | cons f rest ih =>
    by_cases h : f ∈ fields
    · simp [checkRequired, contains_eq, h, List.find?, ih]
    · simp [checkRequired, contains_eq, h, List.find?]

lemma checkAllowed_eq (allowedFields fields : List String) :
    checkAllowed allowedFields fields =
      (fields.find? fun f => !(allowedFields.contains f)).map
        (fun f => DTError.unknownField f allowedFields) := by
  induction fields with
  | nil => rfl
  | cons f rest ih =>
    by_cases h : f ∈ allowedFields
    · simp [checkAllowed, contains_eq, h, List.find?, ih]
    · simp [checkAllowed, contains_eq, h, List.find?]

lemma checkArity_eq (fields : List String) (rows : List (List String)) :
    checkArity fields rows =
      (rows.find? fun r => r.length != fields.length).map
        (fun r => DTError.arity fields.length r.length) := by
  induction rows with
  | nil => rfl
  | cons r rest ih =>
    by_cases h : r.length = fields.length
    · simp [checkArity, h, List.find?, ih]
    · have hb : (r.length != fields.length) = true := by simp [bne_iff_ne, h]
      simp [checkArity, h, List.find?, hb]

lemma checkArity_eq_none_iff (fields : List String) (rows : List (List String)) :
    checkArity fields rows = none ↔ ∀ r ∈ rows, r.length = fields.length := by
  induction rows with
  | nil => simp [checkArity]
  | cons r rest ih =>
    by_cases h : r.length = fields.length
    · simp [checkArity, h, ih]
    · simp [checkArity, h]

/-- The `validateFields` characterization shared by the schema claims. -/
lemma validateFields_eq (o : Options) (fields : List String)
    (rows : List (List String)) :
    validateFields ⟨fields, rows, some o⟩ =
      match o.requiredFields.find? (fun f => !(fields.contains f)) with
      | some f => some (.missingField f)
      | none =>
        if o.optionalFields = [] then none
        else
          match fields.find?
              (fun f => !((o.optionalFields ++ o.requiredFields).contains f)) with
          | some f =>
            some (.unknownField f (o.optionalFields ++ o.requiredFields))
          | none => none := by
  rw [validateFields]
  simp only [checkRequired_eq, checkAllowed_eq, List.length_eq_zero]
  cases o.requiredFields.find? (fun f => !(fields.contains f)) with
  | none =>
    by_cases h : o.optionalFields = []
    · simp [h]
    · simp only [Option.map_none, h, if_false]
      cases fields.find?
          (fun f => !((o.optionalFields ++ o.requiredFields).contains f)) <;>
        simp
  | some f => simp

/-! ### Characterization of the row search -/

/-- When the candidate is at least as long as the table row, `matchValues`
returns normally and decides whether the table row is a pairwise-equal
prefix of the candidate. -/
lemma matchValues_eq (r row : List String) (h : r.length ≤ row.length) :
    matchValues r row = some (r.isPrefixOf row) := by
  induction r generalizing row with
  | nil => cases row <;> simp [matchValues, List.isPrefixOf]
  | cons a restA ih =>
    cases row with
    | nil => simp at h
    | cons b restB =>
      by_cases hab : b = a
      · subst hab
        have := ih restB (by simpa using h)
        simp [matchValues, List.isPrefixOf, this]
      · have hba : ¬ a = b := fun hx => hab hx.symm
        simp [matchValues, List.isPrefixOf, hab, hba]

lemma findRowAux_eq (row : List String) (rows : List (List String)) (i : Int)
    (h : ∀ r ∈ rows, r.length ≤ row.length) :
    findRowAux row rows i =
      some (match rows.findIdx? (fun r => r.isPrefixOf row) with
            | some j => i + (j : Int)
            | none => -1) := by
  induction rows generalizing i with
  | nil => simp [findRowAux, List.findIdx?_nil]
  | cons r rest ih =>
    have hr : matchValues r row = some (r.isPrefixOf row) :=
      matchValues_eq r row (h r (by simp))
    have hrest : ∀ s ∈ rest, s.length ≤ row.length :=
      fun s hs => h s (by simp [hs])
    by_cases hp : r.isPrefixOf row
    · simp [findRowAux, hr, hp, List.findIdx?_cons]
    · rw [findRowAux]
      rw [hr]
      simp only [hp]
      rw [ih (i + 1) hrest]
      rw [List.findIdx?_cons]
      simp only [hp, if_false, List.findIdx?_succ]
      cases hfi : rest.findIdx? (fun r => r.isPrefixOf row) with
      | none => simp
      | some j =>
        simp only [Option.map_some']
        push_cast
        ring_nf

/-! ### Claims -/

/-- C1 (counterexample): the comparison bound of `FindRow` is not the shorter
of the two lengths.  On the table with single row `["x", "y"]` and candidate
`["x"]`, the claim predicts a match at index 0 (pairwise equality up to the
shorter length 1); the code instead panics, because `matchValues` iterates
over the table row's indices and reads `b[1]` from the one-element
candidate. -/
theorem c1_shorter_candidate_panics :
    FindRow ⟨["f", "g"], [["x", "y"]], none⟩ ["x"] = none ∧
    FindRow ⟨["f", "g"], [["x", "y"]], none⟩ ["x"] ≠ some 0 := by
  decide

/-- C1 (amended): `FindRow` scans the rows in order; the comparison bound is
the table row's own length, so a candidate's trailing cells beyond a row's
length are ignored, and the first row that is a pairwise-equal prefix of the
candidate wins (smallest index); `-1` is returned when no row matches.  The
hypothesis restricts to candidates at least as long as every row — a shorter
candidate can make the scan panic instead (see the counterexample). -/
theorem c1_findRow_first_match (t : DataTable) (row : List String)
    (h : ∀ r ∈ t.rows, r.length ≤ row.length) :
    FindRow t row =
      some (match t.rows.findIdx? (fun r => r.isPrefixOf row) with
            | some j => (j : Int)
            | none => -1) := by
  rw [FindRow, findRowAux_eq row t.rows 0 h]
  cases t.rows.findIdx? (fun r => r.isPrefixOf row) <;> simp

/-- C1 (witness): on rows `[["a"], ["b"]]` and the longer candidate
`["b", "z"]`, the second row is a pairwise-equal prefix of the candidate, so
the search returns index 1. -/
theorem c1_findRow_first_match_witness :
    FindRow ⟨["one"], [["a"], ["b"]], none⟩ ["b", "z"] = some 1 := by
  rw [c1_findRow_first_match ⟨["one"], [["a"], ["b"]], none⟩ ["b", "z"]
    (by decide)]
  decide

/-- C2 (counterexample): `Copy` never assigns the `options` field, so copying
a table built with a schema yields a table with a nil options pointer that is
not equal in value to its source. -/
theorem c2_copy_loses_schema :
    Copy ⟨["a"], [["x"]], some ⟨[], ["a"]⟩⟩ ≠ ⟨["a"], [["x"]], some ⟨[], ["a"]⟩⟩ ∧
    (Copy ⟨["a"], [["x"]], some ⟨[], ["a"]⟩⟩).options = none := by
  decide

/-- C2 (amended): `Copy` reproduces the source's `fields` and `rows` exactly
(as fresh value copies), but the validation-relevant schema configuration is
dropped — the copy's options pointer is nil — so the copy equals the source
in value exactly when the source itself carries no options. -/
theorem c2_copy_fields_rows_only (t : DataTable) :
    (Copy t).fields = t.fields ∧ (Copy t).rows = t.rows ∧
    (Copy t).options = none ∧ (Copy t = t ↔ t.options = none) := by
  refine ⟨rfl, rfl, rfl, ?_⟩
  cases t with
  | mk f r o => simp [Copy, DataTable.mk.injEq, eq_comm]

/-- C2 (witness): a schema-free table is copied to an equal value. -/
theorem c2_copy_fields_rows_only_witness :
    Copy ⟨["a"], [["x"]], none⟩ = ⟨["a"], [["x"]], none⟩ :=
  (c2_copy_fields_rows_only ⟨["a"], [["x"]], none⟩).2.2.2.mpr rfl

/-- C3: with a schema supplied, validation first requires every required
field to be contained in `fields` (exact string membership), failing with the
missing-field error naming the first absent one; then, only when
`optionalFields` is non-empty, every field must be contained in
`optionalFields ++ requiredFields`, the first non-member failing with the
unknown-field error naming it and listing the allowed set; when
`optionalFields` is empty the closure check is skipped and extra columns are
permitted. -/
theorem c3_schema_validation (o : Options) (fields : List String)
    (rows : List (List String)) :
    validateFields ⟨fields, rows, some o⟩ =
      match o.requiredFields.find? (fun f => !(fields.contains f)) with
      | some f => some (.missingField f)
      | none =>
        if o.optionalFields = [] then none
        else
          match fields.find?
              (fun f => !((o.optionalFields ++ o.requiredFields).contains f)) with
          | some f =>
            some (.unknownField f (o.optionalFields ++ o.requiredFields))
          | none => none :=
  validateFields_eq o fields rows

/-- C4: the whole construction pipeline in evaluation order — the arity check
runs first over all rows and fails with the arity error (expected field count
versus the first offending row's length) before any schema check; then the
required-fields check, then the optional-fields closure check; validation
stops at the first failure, and an error, never a partial table, is returned
in every failing case. -/
theorem c4_first_failure_order (o? : Option Options) (fields : List String)
    (rows : List (List String)) :
    NewWithOptions o? fields rows =
      match rows.find? (fun r => r.length != fields.length) with
      | some r => .error (.arity fields.length r.length)
      | none =>
        match o? with
        | none => .ok ⟨fields, rows, none⟩
        | some o =>
          match o.requiredFields.find? (fun f => !(fields.contains f)) with
          | some f => .error (.missingField f)
          | none =>
            if o.optionalFields = [] then .ok ⟨fields, rows, some o⟩
            else
              match fields.find?
                  (fun f =>
                    !((o.optionalFields ++ o.requiredFields).contains f)) with
              | some f =>
                .error (.unknownField f (o.optionalFields ++ o.requiredFields))
              | none => .ok ⟨fields, rows, some o⟩ := by
  rw [NewWithOptions, checkArity_eq]
  cases hfa : rows.find? (fun r => r.length != fields.length) with
  | some r => rfl
  | none =>
    simp only [Option.map_none']
    cases o? with
    | none => rfl
    | some o =>
      dsimp only
      rw [validateFields_eq]
      cases hfr : o.requiredFields.find? (fun f => !(fields.contains f)) with
      | some f => rfl
      | none =>
        by_cases h : o.optionalFields = []
        · rw [if_pos h, if_pos h]
        · rw [if_neg h, if_neg h]
          cases hfo : fields.find?
              (fun f => !((o.optionalFields ++ o.requiredFields).contains f)) <;>
            rfl

/-- C5: conversion from a gherkin table fails with the malformed-table error
when the table has fewer than two rows; otherwise the first row's cell values
become the fields, the remaining rows' cell values become the data rows in
order, and the result is exactly what `NewWithOptions` returns on them. -/
theorem c5_fromGherkin (o? : Option Options) (g : GherkinDataTable) :
    (g.rows.length < 2 →
      FromGherkinWithOptions o? g = .error .malformedTable) ∧
    (∀ r0 r1 rest, g.rows = r0 :: r1 :: rest →
      FromGherkinWithOptions o? g =
        NewWithOptions o? (values r0) (rowValues (r1 :: rest))) := by
  obtain ⟨rs⟩ := g
  constructor
  · intro h
    match rs with
    | [] => rfl
    | [_] => rfl
    | r0 :: r1 :: rest => simp at h; omega
  · intro r0 r1 rest hr
    simp only at hr
    subst hr
    rfl

/-- C5 (witness): a one-row gherkin table is malformed; a two-row table
delegates to `NewWithOptions` on the derived fields and rows. -/
theorem c5_fromGherkin_witness :
    FromGherkinWithOptions none ⟨[⟨[⟨"h"⟩]⟩]⟩ = .error .malformedTable ∧
    FromGherkinWithOptions none ⟨[⟨[⟨"h"⟩]⟩, ⟨[⟨"v"⟩]⟩]⟩ =
      NewWithOptions none (values ⟨[⟨"h"⟩]⟩) (rowValues [⟨[⟨"v"⟩]⟩]) :=
  ⟨(c5_fromGherkin none ⟨[⟨[⟨"h"⟩]⟩]⟩).1 (by decide),
   (c5_fromGherkin none ⟨[⟨[⟨"h"⟩]⟩, ⟨[⟨"v"⟩]⟩]⟩).2 ⟨[⟨"h"⟩]⟩ ⟨[⟨"v"⟩]⟩ [] rfl⟩

/-- A successful construction pins down both validations and the table. -/
lemma NewWithOptions_eq_ok_iff (o? : Option Options) (fields : List String)
    (rows : List (List String)) (t' : DataTable) :
    NewWithOptions o? fields rows = .ok t' ↔
      checkArity fields rows = none ∧
      validateFields ⟨fields, rows, o?⟩ = none ∧ t' = ⟨fields, rows, o?⟩ := by
  rw [NewWithOptions]
  cases hca : checkArity fields rows with
  | some e => simp
  | none =>
    cases hv : validateFields ⟨fields, rows, o?⟩ with
    | some e => simp [hv]
    | none => simp [hv, eq_comm]

/-- C6 (counterexample): `RemoveRow` contains no explicit bounds check.  On a
one-row table and the out-of-range index 5 the underlying slice operation
panics, while the spec-modelled variant with the implementer-added check
returns the typed bounds error — a different outcome. -/
theorem c6_no_bounds_check :
    RemoveRow ⟨["f"], [["x"]], none⟩ 5 = RemoveOutcome.slicePanic ∧
    removeRowSpec ⟨["f"], [["x"]], none⟩ 5 = RemoveOutcome.boundsError ∧
    RemoveOutcome.slicePanic ≠ RemoveOutcome.boundsError := by
  decide

/-- C6 (amended): for an in-range index, `RemoveRow` removes exactly the row
at that index — the length drops by one, earlier rows are unchanged and later
rows shift left by one position; for an out-of-range index the call fails
loudly, but through the slice operation's own panic, not through an
explicitly-checked bounds error, which the code never produces. -/
theorem c6_removeRow_shift (t : DataTable) (index : Int) :
    (0 ≤ index ∧ index < (t.rows.length : Int) →
      ∃ u, RemoveRow t index = .ok u ∧ u.fields = t.fields ∧
        u.options = t.options ∧
        u.rows.length + 1 = t.rows.length ∧
        (∀ j : Nat, j < index.toNat → u.rows[j]? = t.rows[j]?) ∧
        (∀ j : Nat, index.toNat ≤ j → u.rows[j]? = t.rows[j + 1]?)) ∧
    (¬ (0 ≤ index ∧ index < (t.rows.length : Int)) →
      RemoveRow t index = .slicePanic ∧
      RemoveRow t index ≠ .boundsError) := by
  constructor
  · rintro ⟨h0, h1⟩
    have hk : index.toNat < t.rows.length := by omega
    refine ⟨⟨t.fields, t.rows.take index.toNat ++ t.rows.drop (index.toNat + 1),
        t.options⟩, ?_, rfl, rfl, ?_, ?_, ?_⟩
    · rw [RemoveRow, if_pos ⟨h0, h1⟩]
    · simp only [List.length_append, List.length_take, List.length_drop]
      omega
    · intro j hj
      have hlt : j < (t.rows.take index.toNat).length := by
        simp only [List.length_take]
        omega
      simp only
      rw [List.getElem?_append, if_pos hlt, List.getElem?_take, if_pos hj]
    · intro j hj
      have hge : (t.rows.take index.toNat).length ≤ j := by
        simp only [List.length_take]
        omega
      simp only
      rw [List.getElem?_append_right hge, List.getElem?_drop]
      have harith :
          index.toNat + 1 + (j - (t.rows.take index.toNat).length) = j + 1 := by
        simp only [List.length_take]
        omega
      rw [harith]
  · intro h
    refine ⟨?_, ?_⟩
    · rw [RemoveRow, if_neg h]
    · rw [RemoveRow, if_neg h]
      simp

/-- C6 (witness): removing at index 0 of a two-row table keeps the later row
at the front, and index 2 is out of range and panics. -/
theorem c6_removeRow_shift_witness :
    RemoveRow ⟨["f"], [["x"], ["y"]], none⟩ 2 = RemoveOutcome.slicePanic ∧
    RemoveRow ⟨["f"], [["x"], ["y"]], none⟩ 0 ≠ RemoveOutcome.slicePanic := by
  constructor
  · exact ((c6_removeRow_shift ⟨["f"], [["x"], ["y"]], none⟩ 2).2 (by decide)).1
  · obtain ⟨u, hu, -⟩ :=
      (c6_removeRow_shift ⟨["f"], [["x"], ["y"]], none⟩ 0).1 (by decide)
    rw [hu]
    simp

/-- C7: the row-length invariant is enforced eagerly at both mutation points:
a table returned by construction satisfies it, construction never returns a
table when some supplied row has the wrong length, appending preserves it,
and `AppendRow` accepts exactly the rows of the right length, rejecting the
others with the same arity error as construction. -/
theorem c7_eager_invariant (o? : Option Options) (fields : List String)
    (rows : List (List String)) (t t' : DataTable) (row : List String) :
    (NewWithOptions o? fields rows = .ok t' → Wf t') ∧
    ((∃ r ∈ rows, r.length ≠ fields.length) →
      ∀ u, NewWithOptions o? fields rows ≠ .ok u) ∧
    (Wf t → Wf (AppendRow t row).2) ∧
    ((AppendRow t row).1 = none ↔ row.length = t.fields.length) ∧
    (row.length ≠ t.fields.length →
      (AppendRow t row).1 = some (.arity t.fields.length row.length)) := by
  refine ⟨?_, ?_, ?_, ?_, ?_⟩
  · intro hok
    rw [NewWithOptions_eq_ok_iff] at hok
    obtain ⟨hca, -, ht'⟩ := hok
    rw [checkArity_eq_none_iff] at hca
    subst ht'
    exact hca
  · rintro ⟨r, hr, hlen⟩ u hok
    rw [NewWithOptions_eq_ok_iff] at hok
    obtain ⟨hca, -, -⟩ := hok
    rw [checkArity_eq_none_iff] at hca
    exact hlen (hca r hr)
  · simp only [Wf]
    intro hwf
    by_cases h : row.length = t.fields.length
    · have h2 : (AppendRow t row).2 = ⟨t.fields, t.rows ++ [row], t.options⟩ := by
        simp [AppendRow, h]
      rw [h2]
      intro r hr
      rcases List.mem_append.mp hr with hm | hm
      · exact hwf r hm
      · rw [List.mem_singleton] at hm
        subst hm
        exact h
    · have h2 : (AppendRow t row).2 = t := by simp [AppendRow, h]
      rw [h2]
      exact hwf
  · by_cases h : row.length = t.fields.length <;> simp [AppendRow, h]
  · intro h
    simp [AppendRow, h]

/-- C7 (witness): a freshly built one-column table satisfies the invariant,
appending a one-cell row keeps it, and a two-cell row is rejected with the
arity error. -/
theorem c7_eager_invariant_witness :
    Wf ⟨["a"], [["x"]], none⟩ ∧
    Wf (AppendRow ⟨["a"], [["x"]], none⟩ ["y"]).2 ∧
    (AppendRow ⟨["a"], [["x"]], none⟩ ["y", "z"]).1 = some (.arity 1 2) := by
  refine ⟨?_, ?_, ?_⟩
  · exact (c7_eager_invariant none ["a"] [["x"]] ⟨["a"], [["x"]], none⟩
      ⟨["a"], [["x"]], none⟩ ["y"]).1 rfl
  · exact (c7_eager_invariant none ["a"] [["x"]] ⟨["a"], [["x"]], none⟩
      ⟨["a"], [["x"]], none⟩ ["y"]).2.2.1 (by simp [Wf])
  · exact (c7_eager_invariant none ["a"] [["x"]] ⟨["a"], [["x"]], none⟩
      ⟨["a"], [["x"]], none⟩ ["y", "z"]).2.2.2.2 (by decide)

/-- C8: schema-free construction on rows of uniform length succeeds, and the
accessors return exactly the supplied fields and rows, in order. -/
theorem c8_construct_identity (fields : List String)
    (rows : List (List String)) (h : ∀ r ∈ rows, r.length = fields.length) :
    (New fields rows).map (fun u => (Fields u, RowValues u)) =
      .ok (fields, rows) := by
  have hca : checkArity fields rows = none :=
    (checkArity_eq_none_iff fields rows).mpr h
  rw [New, NewWithOptions, hca]
  rfl

/-- C8 (witness): two rows of length two under two fields construct the
identity result. -/
theorem c8_construct_identity_witness :
    (New ["a", "b"] [["x", "y"], ["u", "v"]]).map
        (fun u => (Fields u, RowValues u)) =
      .ok (["a", "b"], [["x", "y"], ["u", "v"]]) :=
  c8_construct_identity ["a", "b"] [["x", "y"], ["u", "v"]] (by decide)

/-- C9: `AppendRow` is atomic on failure — a row of the wrong length returns
the arity error and the table keeps its fields, rows and row count. -/
theorem c9_appendRow_atomic (t : DataTable) (row : List String)
    (h : row.length ≠ t.fields.length) :
    (AppendRow t row).1 = some (.arity t.fields.length row.length) ∧
    (AppendRow t row).2.fields = t.fields ∧
    (AppendRow t row).2.rows = t.rows ∧
    Len (AppendRow t row).2 = Len t := by
  simp [AppendRow, Len, h]

/-- C9 (witness): appending a two-cell row to a one-column table errors and
changes nothing. -/
theorem c9_appendRow_atomic_witness :
    (AppendRow ⟨["a"], [["x"]], none⟩ ["y", "z"]).1 = some (.arity 1 2) ∧
    (AppendRow ⟨["a"], [["x"]], none⟩ ["y", "z"]).2.fields = ["a"] ∧
    (AppendRow ⟨["a"], [["x"]], none⟩ ["y", "z"]).2.rows = [["x"]] ∧
    Len (AppendRow ⟨["a"], [["x"]], none⟩ ["y", "z"]).2 =
      Len ⟨["a"], [["x"]], none⟩ :=
  c9_appendRow_atomic ⟨["a"], [["x"]], none⟩ ["y", "z"] (by decide)

/-- C10: on a table with at least one row whose rows are all empty, `FindRow`
returns 0 for every candidate, because the pairwise comparison over the empty
first row succeeds vacuously. -/
theorem c10_findRow_empty_rows (t : DataTable) (hne : t.rows ≠ [])
    (hemp : ∀ r ∈ t.rows, r = []) (row : List String) :
    FindRow t row = some 0 := by
  rcases ht : t.rows with - | ⟨r, rest⟩
  · exact absurd ht hne
  · have hr : r = [] := hemp r (by rw [ht]; exact List.mem_cons_self r rest)
    rw [FindRow, ht, hr]
    rfl

/-- C10 (witness): the zero-field table with two empty rows reports index 0
for an arbitrary nonempty candidate. -/
theorem c10_findRow_empty_rows_witness :
    FindRow ⟨[], [[], []], none⟩ ["x"] = some 0 :=
  c10_findRow_empty_rows ⟨[], [[], []], none⟩ (by decide) (by decide) ["x"]

end Datatable
